import Mathlib

/-!
Shallow embedding of the attendance-report pipeline
(`AttendanceReportGenerator` in `code.py`).

The embedding starts from the post-preprocessing state of the data: a list
of rows, each carrying the (zero-padded) employee id, employee name, the
free-text `TR` label, and the parsed punch timestamp split into its date
components and the second-of-day.  The pipeline under study is
`generate_monthly_report` / `generate_summary_report` / `generate_reports`:
keyword classification of labels, per-(employee, date) min/max reduction,
status derivation from `'%H:%M'`-formatted strings, calendar enumeration,
and the summary statistics.  I/O (file reading, Excel/CSV writing) is out
of scope.
-/

/-- Lowercase the characters of a label, as `Series.str.lower()` does.
The labels in this dataset are ASCII, where `Char.toLower` agrees with
Python's `str.lower`. -/
def lowerChars (s : String) : List Char := s.data.map Char.toLower

/-- `startsWithSeg hay pat` is true when `pat` is an initial segment of `hay`. -/
def startsWithSeg : List Char → List Char → Bool
  | _, [] => true
  | [], _ :: _ => false
  | h :: hs, p :: ps => h == p && startsWithSeg hs ps

/-- `hasSeg pat hay` is true when `pat` occurs as a contiguous segment of
`hay`; this is the substring test performed by
`Series.str.contains('p1|p2|...')` for each literal alternative. -/
def hasSeg (pat : List Char) : List Char → Bool
  | [] => pat.isEmpty
  | h :: hs => startsWithSeg (h :: hs) pat || hasSeg pat hs

/-- The IN keyword alternatives `['time in', 'in', 'entry', 'check in']`
from `generate_monthly_report`. -/
def inKeywords : List String := ["time in", "in", "entry", "check in"]

/-- The OUT keyword alternatives `['time out', 'out', 'exit', 'check out']`
from `generate_monthly_report`. -/
def outKeywords : List String := ["time out", "out", "exit", "check out"]

/-- `emp_records['TR'].str.lower().str.contains('|'.join(pats))`: the
lowercased label contains at least one of the keyword alternatives. -/
def matchesAny (pats : List String) (tr : String) : Bool :=
  pats.any fun p => hasSeg p.data (lowerChars tr)

/-- Membership test of a row in `df_in`. -/
def matchesIn (tr : String) : Bool := matchesAny inKeywords tr

/-- Membership test of a row in `df_out`. -/
def matchesOut (tr : String) : Bool := matchesAny outKeywords tr

/-- One preprocessed data row: employee id (`EmpID`, zero-padded by
preprocessing), employee name, the free-text `TR` label, and the parsed
`DateTime` split into calendar date components plus the second of the day
(`sec`, seconds since local midnight).  Comparing the `DateTime` of two
rows that fall on the same calendar date is comparing their `sec`. -/
structure Row where
  empId : String
  name : String
  tr : String
  year : Nat
  month : Nat
  day : Nat
  sec : Nat
deriving DecidableEq

/-- `self.df[self.df['YearMonth'] == month]`: the rows of the target month. -/
def monthRows (df : List Row) (y m : Nat) : List Row :=
  df.filter fun r => r.year == y && r.month == m

/-- `month_df[month_df['EmpID'] == emp_id]`: one employee's rows. -/
def empRows (rows : List Row) (id : String) : List Row :=
  rows.filter fun r => r.empId == id

/-- The rows whose punch falls on the calendar date `(y, m, d)`; this is the
group selected by `groupby(df['DateTime'].dt.date)` at key `(y, m, d)`. -/
def dateRows (rows : List Row) (y m d : Nat) : List Row :=
  rows.filter fun r => r.year == y && r.month == m && r.day == d

/-- Minimum of a list of naturals, `none` on the empty list; the value of
`groupby(...)['DateTime'].min()` at one key, restricted to second-of-day. -/
def minOpt : List Nat → Option Nat
  | [] => none
  | a :: l =>
    match minOpt l with
    | none => some a
    | some b => some (Nat.min a b)

/-- Maximum of a list of naturals, `none` on the empty list; the value of
`groupby(...)['DateTime'].max()` at one key, restricted to second-of-day. -/
def maxOpt : List Nat → Option Nat
  | [] => none
  | a :: l =>
    match maxOpt l with
    | none => some a
    | some b => some (Nat.max a b)

/-- The seconds-of-day of the employee's rows on date `(y, m, d)` whose
label matches the IN keyword set: the group of `df_in` feeding
`in_times.get(date_key)`. -/
def inCandidates (df : List Row) (y m : Nat) (id : String) (d : Nat) : List Nat :=
  (dateRows ((empRows (monthRows df y m) id).filter fun r => matchesIn r.tr) y m d).map Row.sec

/-- The seconds-of-day of the employee's rows on date `(y, m, d)` whose
label matches the OUT keyword set: the group of `df_out` feeding
`out_times.get(date_key)`. -/
def outCandidates (df : List Row) (y m : Nat) (id : String) (d : Nat) : List Nat :=
  (dateRows ((empRows (monthRows df y m) id).filter fun r => matchesOut r.tr) y m d).map Row.sec

/-- The aggregated facts of one (employee, date): `in_time` and `out_time`
looked up for `date_key` in `generate_monthly_report`, `none` standing for
a missing key (pandas `NaT`). -/
structure DayFact where
  firstIn : Option Nat
  lastOut : Option Nat
deriving DecidableEq

/-- The `in_times.get(date_key)` / `out_times.get(date_key)` pair. -/
def dayFact (df : List Row) (y m : Nat) (id : String) (d : Nat) : DayFact :=
  { firstIn := minOpt (inCandidates df y m id d)
    lastOut := maxOpt (outCandidates df y m id d) }

/-- Two-digit zero padding, as in `strftime` fields `%H`, `%M`, `%d`, `%m`. -/
def pad2 (n : Nat) : String := if n < 10 then "0" ++ toString n else toString n

/-- Four-digit zero padding, the `%Y` field of `strftime`. -/
def pad4 (n : Nat) : String :=
  if n < 10 then "000" ++ toString n
  else if n < 100 then "00" ++ toString n
  else if n < 1000 then "0" ++ toString n
  else toString n

/-- `strftime('%H:%M')` applied to a time `t` seconds after midnight. -/
def fmtHM (t : Nat) : String := pad2 (t / 3600) ++ ":" ++ pad2 (t % 3600 / 60)

/-- The In-Time/Out-Time cell text: the formatted time when the lookup
produced a value, the literal `'00:00'` otherwise. -/
def timeCell : Option Nat → String
  | some t => fmtHM t
  | none => "00:00"

/-- The status derivation of `generate_monthly_report`: it compares the two
formatted strings against the literal `'00:00'`. -/
def statusOf (f : DayFact) : Char :=
  let inS := timeCell f.firstIn
  let outS := timeCell f.lastOut
  if inS != "00:00" && outS != "00:00" then 'P'
  else if inS != "00:00" || outS != "00:00" then 'E'
  else 'A'

/-- `day.strftime('%d-%m-%Y')`, the Date row cell. -/
def dateCell (y m d : Nat) : String := pad2 d ++ "-" ++ pad2 m ++ "-" ++ pad4 y

/-- One day column of an employee block: the In-Time, Out-Time, Status and
Date cells produced for one calendar day. -/
structure DayCell where
  inS : String
  outS : String
  status : Char
  dateS : String
deriving DecidableEq

/-- The cells computed for one (employee, calendar day) of the month. -/
def dayCell (df : List Row) (y m : Nat) (id : String) (d : Nat) : DayCell :=
  let f := dayFact df y m id d
  { inS := timeCell f.firstIn
    outS := timeCell f.lastOut
    status := statusOf f
    dateS := dateCell y m d }

/-- `(y % 4 == 0 and y % 100 != 0) or y % 400 == 0`: the Gregorian leap
rule implemented by `datetime`. -/
def isLeap (y : Nat) : Bool := (y % 4 == 0 && y % 100 != 0) || y % 400 == 0

/-- Days in the months strictly before month `m` of a year with the given
leap flag. -/
def priorDays (leap : Bool) (m : Nat) : Nat :=
  let base :=
    if m = 1 then 0 else if m = 2 then 31 else if m = 3 then 59 else if m = 4 then 90
    else if m = 5 then 120 else if m = 6 then 151 else if m = 7 then 181
    else if m = 8 then 212 else if m = 9 then 243 else if m = 10 then 273
    else if m = 11 then 304 else if m = 12 then 334 else 0
  if leap && 2 < m then base + 1 else base

/-- Proleptic-Gregorian day number of the date `(y, m, d)` (rata die), the
ordinal on which `datetime` date arithmetic operates. -/
def rataDie (y m d : Nat) : Nat :=
  365 * (y - 1) + ((y - 1) / 4 - (y - 1) / 100 + (y - 1) / 400) +
    priorDays (isLeap y) m + d

/-- The length of `pd.date_range(start_date, end_date)` where `end_date` is
the first day of the following month minus one day; a December target rolls
to January 1 of `year + 1`, exactly as in `generate_monthly_report`. -/
def daysInMonth (y m : Nat) : Nat :=
  if m == 12 then rataDie (y + 1) 1 1 - rataDie y 12 1
  else rataDie y (m + 1) 1 - rataDie y m 1

/-- The day-of-month numbers of `all_days`, in the order `date_range`
produces them. -/
def monthDays (y m : Nat) : List Nat := List.range' 1 (daysInMonth y m)

/-- Number of calendar days of month `m` of year `y` as stated by the
calendar (31/30, February 28 or 29); the specification-side count the grid
length is compared against. -/
def calendarDays (y m : Nat) : Nat :=
  if m = 2 then (if isLeap y then 29 else 28)
  else if m = 4 ∨ m = 6 ∨ m = 9 ∨ m = 11 then 30
  else if 1 ≤ m ∧ m ≤ 12 then 31
  else 0

/-- The daily grid of one employee for the target month: one entry per
element of `all_days`, pairing the day-of-month with its cells. -/
def empGrid (df : List Row) (y m : Nat) (id : String) : List (Nat × DayCell) :=
  (monthDays y m).map fun d => (d, dayCell df y m id d)

/-- First-occurrence deduplication (`DataFrame.drop_duplicates`), written
with an accumulator of already-seen elements. -/
def firstDedupAux {α : Type} [DecidableEq α] (seen : List α) : List α → List α
  | [] => []
  | a :: l => if a ∈ seen then firstDedupAux seen l else a :: firstDedupAux (a :: seen) l

/-- `drop_duplicates` over a list, keeping first occurrences. -/
def firstDedup {α : Type} [DecidableEq α] (l : List α) : List α := firstDedupAux [] l

/-- Code-point comparison of character lists: Python string `<`. -/
def charListLt : List Char → List Char → Bool
  | [], [] => false
  | [], _ :: _ => true
  | _ :: _, [] => false
  | a :: as, b :: bs => a.toNat < b.toNat || (a.toNat == b.toNat && charListLt as bs)

/-- Python string `<`: lexicographic by code point. -/
def strLt (a b : String) : Bool := charListLt a.data b.data

/-- Python list comparison on `[emp_id, emp_name]` pairs, as a reflexive
total preorder: compares ids, then names on equal ids. -/
def pairLe (a b : String × String) : Bool :=
  strLt a.1 b.1 || (a.1 == b.1 && (strLt a.2 b.2 || a.2 == b.2))

/-- `sorted(month_df[['EmpID', 'EmployeeName']].drop_duplicates().values.tolist())`:
the distinct (id, name) pairs of the month in ascending lexicographic
order.  Python's `sorted` is a stable sort; on the deduplicated (hence
pairwise distinct) keys any sort by the total order `pairLe` yields the
same list, so an insertion sort models it. -/
def employeesOf (rows : List Row) : List (String × String) :=
  (firstDedup (rows.map fun r => (r.empId, r.name))).insertionSort
    (fun a b => pairLe a b = true)

/-- One employee block of the detail report: the header identity and the
per-day cells (the In-Time, Out-Time, Status and Date rows share the same
per-day data). -/
structure EmpBlock where
  empId : String
  empName : String
  days : List (Nat × DayCell)
deriving DecidableEq

/-- `generate_monthly_report`: `None` when the month has no rows, otherwise
one block per distinct (id, name) pair; each block's cells are computed
from the rows selected by the employee id alone. -/
def generateMonthlyReport (df : List Row) (y m : Nat) : Option (List EmpBlock) :=
  let rows := monthRows df y m
  if rows.isEmpty then none
  else some ((employeesOf rows).map fun p =>
    { empId := p.1, empName := p.2, days := empGrid df y m p.1 })

/-- The per-month loop of `generate_reports`: every selected month is
processed independently; a `none` outcome is the "no data" case that is
skipped by the writer. -/
def generateReports (df : List Row) (months : List (Nat × Nat)) :
    List ((Nat × Nat) × Option (List EmpBlock)) :=
  months.map fun p => (p, generateMonthlyReport df p.1 p.2)

/-- `emp_records['DateTime'].dt.date.nunique()`: the number of distinct
punch dates of the employee id within the month's rows. -/
def presentDaysOf (df : List Row) (y m : Nat) (id : String) : Nat :=
  (firstDedup ((empRows (monthRows df y m) id).map fun r => (r.year, r.month, r.day))).length

/-- `round((present_days / total_working_days) * 100, 2)` expressed in
hundredths: the integer nearest to `10000 * p / t`, ties to even.  The
source computes this with IEEE doubles; this model performs the same
rounding in exact arithmetic, which coincides with the source wherever the
double computation is exact (in particular on every concrete instance
evaluated below). -/
def pctCents (p t : Nat) : Nat :=
  let q := 10000 * p / t
  let r := 10000 * p % t
  if 2 * r < t then q
  else if t < 2 * r then q + 1
  else if q % 2 == 0 then q else q + 1

/-- Python `str` of the non-negative float holding `n` hundredths: drops
trailing fractional zeros but always keeps at least one fractional digit
(`str(10.0) == '10.0'`, `str(73.3) == '73.3'`, `str(73.33) == '73.33'`). -/
def centsToStr (n : Nat) : String :=
  let whole := n / 100
  let cents := n % 100
  if cents == 0 then toString whole ++ ".0"
  else if cents % 10 == 0 then toString whole ++ "." ++ toString (cents / 10)
  else toString whole ++ "." ++ pad2 cents

/-- `f"{attendance_percentage}%"`: the summary percentage text. -/
def pctString (p t : Nat) : String := centsToStr (pctCents p t) ++ "%"

/-- One row of the summary report of `generate_summary_report`.  Python's
`absent_days = total - present` may be negative in principle, hence `Int`. -/
structure SummaryRow where
  empId : String
  empName : String
  totalDays : Nat
  presentDays : Nat
  absentDays : Int
  pct : String
deriving DecidableEq

/-- `generate_summary_report`: `None` on an empty month, otherwise one row
per distinct (id, name) pair, with statistics computed from the rows
selected by the employee id alone. -/
def generateSummaryReport (df : List Row) (y m : Nat) : Option (List SummaryRow) :=
  let rows := monthRows df y m
  if rows.isEmpty then none
  else some ((employeesOf rows).map fun p =>
    let present := presentDaysOf df y m p.1
    let total := daysInMonth y m
    { empId := p.1, empName := p.2, totalDays := total, presentDays := present,
      absentDays := (total : Int) - (present : Int), pct := pctString present total })

/-- Direction classification as the specification words it: IN when the
label matches only the IN keyword set, OUT when it matches only the OUT
set, UNKNOWN when it matches both or neither.  This is the
specification-side definition used to compare against the code's bucketing. -/
inductive Direction
  | IN
  | OUT
  | UNKNOWN
deriving DecidableEq

/-- The specification's direction of a label. -/
def specDirection (tr : String) : Direction :=
  if matchesIn tr && !matchesOut tr then Direction.IN
  else if matchesOut tr && !matchesIn tr then Direction.OUT
  else Direction.UNKNOWN

/-- The seconds-of-day of the employee's rows on date `(y, m, d)` whose
specification direction is IN; the pool the specification says `firstIn`
is the minimum of. -/
def specInSecs (df : List Row) (y m : Nat) (id : String) (d : Nat) : List Nat :=
  ((dateRows (empRows (monthRows df y m) id) y m d).filter
    fun r => specDirection r.tr == Direction.IN).map Row.sec

/-- Whether the employee id has at least one punch row on day `d` of the
target month. -/
def hasPunch (df : List Row) (y m : Nat) (id : String) (d : Nat) : Bool :=
  !(dateRows (empRows (monthRows df y m) id) y m d).isEmpty

/-- Count of grid days whose status is `'P'` or `'E'`: what the claimed
summary rule would count. -/
def gridPresentCount (df : List Row) (y m : Nat) (id : String) : Nat :=
  (empGrid df y m id).countP fun c => c.2.status == 'P' || c.2.status == 'E'

/-- Number of fractional digits of a formatted percentage: the characters
strictly between the `'.'` and the `'%'`. -/
def fracDigits (s : String) : Nat :=
  (((s.data.dropWhile fun c => c ≠ '.').drop 1).takeWhile fun c => c ≠ '%').length

/-- Round-half-even of a rational to an integer, the specification-side
reading of Python's `round`. -/
def intRoundEven (q : ℚ) : ℤ :=
  let f := ⌊q⌋
  if q - f < 1 / 2 then f
  else if (1 : ℚ) / 2 < q - f then f + 1
  else if f % 2 == 0 then f else f + 1

/-- `round(x, 2)` on a rational, the specification-side reading. -/
def specRound2 (q : ℚ) : ℚ := (intRoundEven (q * 100) : ℚ) / 100

/-! ## Lemmas about the min/max reduction -/

theorem minOpt_eq_none {l : List Nat} : minOpt l = none ↔ l = [] := by
  cases l with
  | nil => simp [minOpt]
  | cons x xs =>
    simp only [minOpt]
    cases minOpt xs <;> simp

theorem maxOpt_eq_none {l : List Nat} : maxOpt l = none ↔ l = [] := by
  cases l with
  | nil => simp [maxOpt]
  | cons x xs =>
    simp only [maxOpt]
    cases maxOpt xs <;> simp

/-- The value of the fold `minOpt` is characterised as the member of the
list that bounds every member from below. -/
theorem minOpt_eq_some {l : List Nat} {a : Nat} :
    minOpt l = some a ↔ a ∈ l ∧ ∀ b ∈ l, a ≤ b := by
  induction l generalizing a with
  | nil => simp [minOpt]
  | cons x xs ih =>
    cases h : minOpt xs with
    | none =>
      have hx : xs = [] := minOpt_eq_none.1 h
      subst hx
      simp only [minOpt, List.mem_singleton, List.forall_mem_singleton]
      constructor
      · intro hax
        injection hax with hax
        subst hax
        exact ⟨rfl, fun b hb => hb ▸ Nat.le_refl _⟩
      · rintro ⟨rfl, _⟩
        rfl
    | some b =>
      obtain ⟨hbmem, hbd⟩ := ih.1 h
      simp only [minOpt, h]
      constructor
      · intro hax
        injection hax with hax
        subst hax
        refine ⟨?_, ?_⟩
        · rcases Nat.le_total x b with hxb | hbx
          · simp [Nat.min_eq_left hxb]
          · exact List.mem_cons_of_mem _ (by simpa [Nat.min_eq_right hbx] using hbmem)
        · intro c hc
          rcases List.mem_cons.1 hc with rfl | hcx
          · exact Nat.min_le_left _ _
          · exact Nat.le_trans (Nat.min_le_right _ _) (hbd c hcx)
      · rintro ⟨hmem, hbound⟩
        have hax : a ≤ x := hbound x (List.mem_cons_self _ _)
        have hab : a ≤ b := hbound b (List.mem_cons_of_mem _ hbmem)
        have h1 : a ≤ Nat.min x b := Nat.le_min.2 ⟨hax, hab⟩
        have h2 : Nat.min x b ≤ a := by
          rcases List.mem_cons.1 hmem with rfl | hxs
          · exact Nat.min_le_left _ _
          · exact Nat.le_trans (Nat.min_le_right _ _) (hbd a hxs)
        exact congrArg some (Nat.le_antisymm h2 h1)

/-- The value of the fold `maxOpt` is characterised as the member of the
list that bounds every member from above. -/
theorem maxOpt_eq_some {l : List Nat} {a : Nat} :
    maxOpt l = some a ↔ a ∈ l ∧ ∀ b ∈ l, b ≤ a := by
  induction l generalizing a with
  | nil => simp [maxOpt]
  | cons x xs ih =>
    cases h : maxOpt xs with
    | none =>
      have hx : xs = [] := maxOpt_eq_none.1 h
      subst hx
      simp only [maxOpt, List.mem_singleton, List.forall_mem_singleton]
      constructor
      · intro hax
        injection hax with hax
        subst hax
        exact ⟨rfl, fun b hb => hb ▸ Nat.le_refl _⟩
      · rintro ⟨rfl, _⟩
        rfl
    | some b =>
      obtain ⟨hbmem, hbd⟩ := ih.1 h
      simp only [maxOpt, h]
      constructor
      · intro hax
        injection hax with hax
        subst hax
        refine ⟨?_, ?_⟩
        · rcases Nat.le_total x b with hxb | hbx
          · exact List.mem_cons_of_mem _ (by simpa [Nat.max_eq_right hxb] using hbmem)
          · simp [Nat.max_eq_left hbx]
        · intro c hc
          rcases List.mem_cons.1 hc with rfl | hcx
          · exact Nat.le_max_left _ _
          · exact Nat.le_trans (hbd c hcx) (Nat.le_max_right _ _)
      · rintro ⟨hmem, hbound⟩
        have hax : x ≤ a := hbound x (List.mem_cons_self _ _)
        have hab : b ≤ a := hbound b (List.mem_cons_of_mem _ hbmem)
        have h1 : Nat.max x b ≤ a := Nat.max_le.2 ⟨hax, hab⟩
        have h2 : a ≤ Nat.max x b := by
          rcases List.mem_cons.1 hmem with rfl | hxs
          · exact Nat.le_max_left _ _
          · exact Nat.le_trans (hbd a hxs) (Nat.le_max_right _ _)
        exact congrArg some (Nat.le_antisymm h1 h2)

/-- The min reduction only depends on the multiset of values. -/
theorem minOpt_perm {l l' : List Nat} (h : l.Perm l') : minOpt l = minOpt l' := by
  cases h' : minOpt l' with
  | none =>
    have hnil : l' = [] := minOpt_eq_none.1 h'
    subst hnil
    exact minOpt_eq_none.2 h.eq_nil
  | some a =>
    obtain ⟨hm, hb⟩ := minOpt_eq_some.1 h'
    exact minOpt_eq_some.2 ⟨h.mem_iff.2 hm, fun b hbl => hb b (h.mem_iff.1 hbl)⟩

/-- The max reduction only depends on the multiset of values. -/
theorem maxOpt_perm {l l' : List Nat} (h : l.Perm l') : maxOpt l = maxOpt l' := by
  cases h' : maxOpt l' with
  | none =>
    have hnil : l' = [] := maxOpt_eq_none.1 h'
    subst hnil
    exact maxOpt_eq_none.2 h.eq_nil
  | some a =>
    obtain ⟨hm, hb⟩ := maxOpt_eq_some.1 h'
    exact maxOpt_eq_some.2 ⟨h.mem_iff.2 hm, fun b hbl => hb b (h.mem_iff.1 hbl)⟩

/-! ## Lemmas about the formatted-time sentinel -/

/-- Exhaustive check of the `'%H:%M'` rendering over all hour/minute pairs:
the cell text equals the sentinel exactly for hour 0, minute 0. -/
theorem pad2_pair_eq_sentinel :
    ∀ a < 24, ∀ b < 60, ((pad2 a ++ ":" ++ pad2 b) = "00:00" ↔ (a = 0 ∧ b = 0)) := by
  decide

/-- For a time of day, the formatted string collides with the missing-punch
sentinel exactly on the first minute of the day. -/
theorem fmtHM_eq_sentinel {t : Nat} (ht : t < 86400) : fmtHM t = "00:00" ↔ t < 60 := by
  have h1 : t / 3600 < 24 := by omega
  have h2 : t % 3600 / 60 < 60 := by omega
  have h := pad2_pair_eq_sentinel _ h1 _ h2
  unfold fmtHM
  rw [h]
  omega

/-- A present cell text differs from `'00:00'` exactly when the lookup
produced a time at or after 00:01:00. -/
theorem timeCell_ne_sentinel {o : Option Nat} (h : ∀ t, o = some t → t < 86400) :
    timeCell o ≠ "00:00" ↔ ∃ t, o = some t ∧ 60 ≤ t := by
  cases o with
  | none => simp [timeCell]
  | some t =>
    have ht := h t rfl
    simp only [timeCell, Option.some.injEq]
    constructor
    · intro hne
      refine ⟨t, rfl, ?_⟩
      by_contra hlt
      exact hne ((fmtHM_eq_sentinel ht).2 (by omega))
    · rintro ⟨u, rfl, hu⟩
      intro heq
      have := (fmtHM_eq_sentinel ht).1 heq
      omega

/-- Full case analysis of the status letter in terms of which of the two
formatted cells differ from the sentinel. -/
theorem statusOf_cases (f : DayFact)
    (hin : ∀ t, f.firstIn = some t → t < 86400)
    (hout : ∀ t, f.lastOut = some t → t < 86400) :
    (statusOf f = 'P' ↔
      (∃ t, f.firstIn = some t ∧ 60 ≤ t) ∧ (∃ u, f.lastOut = some u ∧ 60 ≤ u)) ∧
    (statusOf f = 'E' ↔
      ((∃ t, f.firstIn = some t ∧ 60 ≤ t) ↔ ¬(∃ u, f.lastOut = some u ∧ 60 ≤ u))) ∧
    (statusOf f = 'A' ↔
      (¬(∃ t, f.firstIn = some t ∧ 60 ≤ t) ∧ ¬(∃ u, f.lastOut = some u ∧ 60 ≤ u))) := by
  have hI := timeCell_ne_sentinel hin
  have hO := timeCell_ne_sentinel hout
  by_cases hPI : ∃ t, f.firstIn = some t ∧ 60 ≤ t <;>
    by_cases hPO : ∃ u, f.lastOut = some u ∧ 60 ≤ u
  · have b1 : (timeCell f.firstIn != "00:00") = true := by
      simpa [bne_iff_ne] using hI.2 hPI
    have b2 : (timeCell f.lastOut != "00:00") = true := by
      simpa [bne_iff_ne] using hO.2 hPO
    simp +decide [statusOf, b1, b2, hPI, hPO]
  · have b1 : (timeCell f.firstIn != "00:00") = true := by
      simpa [bne_iff_ne] using hI.2 hPI
    have b2 : (timeCell f.lastOut != "00:00") = false := by
      have h2 : timeCell f.lastOut = "00:00" := by
        by_contra hc
        exact hPO (hO.1 hc)
      simp [h2]
    simp +decide [statusOf, b1, b2, hPI, hPO]
  · have b1 : (timeCell f.firstIn != "00:00") = false := by
      have h1 : timeCell f.firstIn = "00:00" := by
        by_contra hc
        exact hPI (hI.1 hc)
      simp [h1]
    have b2 : (timeCell f.lastOut != "00:00") = true := by
      simpa [bne_iff_ne] using hO.2 hPO
    simp +decide [statusOf, b1, b2, hPI, hPO]
  · have b1 : (timeCell f.firstIn != "00:00") = false := by
      have h1 : timeCell f.firstIn = "00:00" := by
        by_contra hc
        exact hPI (hI.1 hc)
      simp [h1]
    have b2 : (timeCell f.lastOut != "00:00") = false := by
      have h2 : timeCell f.lastOut = "00:00" := by
        by_contra hc
        exact hPO (hO.1 hc)
      simp [h2]
    simp +decide [statusOf, b1, b2, hPI, hPO]

/-! ## Lemmas about the calendar enumeration -/

/-- Boolean leap test unfolded to arithmetic. -/
theorem isLeap_iff {y : Nat} : isLeap y = true ↔ (y % 4 = 0 ∧ y % 100 ≠ 0) ∨ y % 400 = 0 := by
  simp [isLeap]

/-- Arithmetic content of a false leap test. -/
theorem isLeap_false_arith {y : Nat} (hl : isLeap y = false) :
    ¬((y % 4 = 0 ∧ y % 100 ≠ 0) ∨ y % 400 = 0) := by
  intro hc
  rw [← isLeap_iff, hl] at hc
  exact Bool.false_ne_true hc

set_option maxHeartbeats 2000000 in
/-- The date-arithmetic month length (`first of next month minus one day`,
December rolling into January of the next year) agrees with the calendar
month lengths, leap Februaries included. -/
theorem daysInMonth_eq_calendarDays (y m : Nat) (hy : 1 ≤ y) (hm1 : 1 ≤ m) (hm2 : m ≤ 12) :
    daysInMonth y m = calendarDays y m := by
  rcases Bool.eq_false_or_eq_true (isLeap y) with hl | hl
  · have harith := isLeap_iff.1 hl
    interval_cases m <;>
      simp +decide [daysInMonth, rataDie, priorDays, calendarDays, hl] <;> omega
  · have harith := isLeap_false_arith hl
    interval_cases m <;>
      simp +decide [daysInMonth, rataDie, priorDays, calendarDays, hl] <;> omega

/-! ## Lemmas about deduplication and employee ordering -/

theorem mem_firstDedupAux {α : Type} [DecidableEq α] {x : α} :
    ∀ (seen l : List α), x ∈ firstDedupAux seen l ↔ x ∈ l ∧ x ∉ seen := by
  intro seen l
  induction l generalizing seen with
  | nil => simp [firstDedupAux]
  | cons a l ih =>
    by_cases ha : a ∈ seen
    · simp only [firstDedupAux, if_pos ha, ih, List.mem_cons]
      constructor
      · rintro ⟨hx, hs⟩
        exact ⟨Or.inr hx, hs⟩
      · rintro ⟨hx | hx, hs⟩
        · subst hx
          exact absurd ha hs
        · exact ⟨hx, hs⟩
    · simp only [firstDedupAux, if_neg ha, List.mem_cons, ih, List.mem_cons]
      constructor
      · rintro (rfl | ⟨hx, hs⟩)
        · exact ⟨Or.inl rfl, ha⟩
        · exact ⟨Or.inr hx, fun hc => hs (Or.inr hc)⟩
      · rintro ⟨rfl | hx, hs⟩
        · exact Or.inl rfl
        · by_cases hxa : x = a
          · exact Or.inl hxa
          · exact Or.inr ⟨hx, fun hc => hc.elim hxa hs⟩

theorem nodup_firstDedupAux {α : Type} [DecidableEq α] :
    ∀ (seen l : List α), (firstDedupAux seen l).Nodup := by
  intro seen l
  induction l generalizing seen with
  | nil => simp [firstDedupAux]
  | cons a l ih =>
    by_cases ha : a ∈ seen
    · simpa [firstDedupAux, if_pos ha] using ih seen
    · simp only [firstDedupAux, if_neg ha, List.nodup_cons]
      refine ⟨fun hc => ?_, ih _⟩
      exact ((mem_firstDedupAux _ _).1 hc).2 (List.mem_cons_self _ _)

theorem mem_firstDedup {α : Type} [DecidableEq α] {x : α} {l : List α} :
    x ∈ firstDedup l ↔ x ∈ l := by
  simp [firstDedup, mem_firstDedupAux]

theorem nodup_firstDedup {α : Type} [DecidableEq α] (l : List α) :
    (firstDedup l).Nodup := nodup_firstDedupAux [] l

/-- A list and its first-occurrence deduplication generate the same finite
set of values. -/
theorem toFinset_firstDedup {α : Type} [DecidableEq α] (l : List α) :
    (firstDedup l).toFinset = l.toFinset := by
  ext x
  simp [mem_firstDedup]

/-- `nunique` as a set cardinality: the length of the deduplicated list is
the number of distinct values. -/
theorem length_firstDedup {α : Type} [DecidableEq α] (l : List α) :
    (firstDedup l).length = l.toFinset.card := by
  rw [← toFinset_firstDedup]
  exact (List.toFinset_card_of_nodup (nodup_firstDedup l)).symm

theorem charListLt_irrefl : ∀ l : List Char, charListLt l l = false := by
  intro l
  induction l with
  | nil => rfl
  | cons a as ih => simp [charListLt, ih]

theorem charListLt_trans : ∀ {a b c : List Char},
    charListLt a b = true → charListLt b c = true → charListLt a c = true := by
  intro a
  induction a with
  | nil =>
    intro b c hab hbc
    cases b with
    | nil => simp [charListLt] at hab
    | cons y bs =>
      cases c with
      | nil => simp [charListLt] at hbc
      | cons z cs => simp [charListLt]
  | cons x as ih =>
    intro b c hab hbc
    cases b with
    | nil => simp [charListLt] at hab
    | cons y bs =>
      cases c with
      | nil => simp [charListLt] at hbc
      | cons z cs =>
        simp only [charListLt, Bool.or_eq_true, Bool.and_eq_true, beq_iff_eq,
          decide_eq_true_eq] at hab hbc ⊢
        rcases hab with h1 | ⟨h1, h1'⟩ <;> rcases hbc with h2 | ⟨h2, h2'⟩
        · exact Or.inl (Nat.lt_trans h1 h2)
        · exact Or.inl (h2 ▸ h1)
        · exact Or.inl (h1 ▸ h2)
        · exact Or.inr ⟨h1.trans h2, ih h1' h2'⟩

theorem charListLt_connex : ∀ {a b : List Char},
    charListLt a b = false → charListLt b a = false → a = b := by
  intro a
  induction a with
  | nil =>
    intro b hab _
    cases b with
    | nil => rfl
    | cons y bs => simp [charListLt] at hab
  | cons x as ih =>
    intro b hab hba
    cases b with
    | nil => simp [charListLt] at hba
    | cons y bs =>
      simp only [charListLt, Bool.or_eq_false_iff, decide_eq_false_iff_not] at hab hba
      obtain ⟨h1, h2⟩ := hab
      obtain ⟨h3, h4⟩ := hba
      have hxy : x.toNat = y.toNat := by omega
      have hx : x = y := Char.ext (UInt32.toNat.inj hxy)
      subst hx
      simp only [beq_self_eq_true, Bool.true_and] at h2 h4
      rw [ih h2 h4]

theorem strLt_trans {a b c : String} (h1 : strLt a b = true) (h2 : strLt b c = true) :
    strLt a c = true := charListLt_trans h1 h2

theorem strLt_connex {a b : String} (h1 : strLt a b = false) (h2 : strLt b a = false) :
    a = b := by
  cases a with
  | mk da =>
    cases b with
    | mk db => exact congrArg String.mk (charListLt_connex h1 h2)

/-- Transitivity of the Python pair comparison. -/
theorem pairLe_trans {a b c : String × String} (hab : pairLe a b = true)
    (hbc : pairLe b c = true) : pairLe a c = true := by
  simp only [pairLe, Bool.or_eq_true, Bool.and_eq_true, beq_iff_eq] at hab hbc ⊢
  rcases hab with h1 | ⟨h1, h1'⟩ <;> rcases hbc with h2 | ⟨h2, h2'⟩
  · exact Or.inl (strLt_trans h1 h2)
  · exact Or.inl (h2 ▸ h1)
  · exact Or.inl (h1 ▸ h2)
  · refine Or.inr ⟨h1.trans h2, ?_⟩
    rcases h1' with h3 | h3 <;> rcases h2' with h4 | h4
    · exact Or.inl (strLt_trans h3 h4)
    · exact Or.inl (h4 ▸ h3)
    · exact Or.inl (h3 ▸ h4)
    · exact Or.inr (h3.trans h4)

/-- Totality of the Python pair comparison. -/
theorem pairLe_total (a b : String × String) : pairLe a b = true ∨ pairLe b a = true := by
  simp only [pairLe, Bool.or_eq_true, Bool.and_eq_true, beq_iff_eq]
  cases h1 : strLt a.1 b.1 with
  | true => exact Or.inl (Or.inl rfl)
  | false =>
    cases h2 : strLt b.1 a.1 with
    | true => exact Or.inr (Or.inl rfl)
    | false =>
      have e1 : a.1 = b.1 := strLt_connex h1 h2
      cases h3 : strLt a.2 b.2 with
      | true => exact Or.inl (Or.inr ⟨e1, Or.inl rfl⟩)
      | false =>
        cases h4 : strLt b.2 a.2 with
        | true => exact Or.inr (Or.inr ⟨e1.symm, Or.inl rfl⟩)
        | false => exact Or.inl (Or.inr ⟨e1, Or.inr (strLt_connex h3 h4)⟩)

/-- The employee key list of a month is free of duplicates. -/
theorem employeesOf_nodup (rows : List Row) : (employeesOf rows).Nodup :=
  ((List.perm_insertionSort _ _).nodup_iff).2 (nodup_firstDedup _)

/-- Membership in the employee key list is exactly having an observed row
with that id and name. -/
theorem mem_employeesOf {p : String × String} {rows : List Row} :
    p ∈ employeesOf rows ↔ ∃ r ∈ rows, r.empId = p.1 ∧ r.name = p.2 := by
  rw [employeesOf, (List.perm_insertionSort _ _).mem_iff, mem_firstDedup, List.mem_map]
  constructor
  · rintro ⟨r, hr, rfl⟩
    exact ⟨r, hr, rfl, rfl⟩
  · rintro ⟨r, hr, h1, h2⟩
    exact ⟨r, hr, by rw [h1, h2]⟩

/-- The employee key list is sorted by the Python pair comparison. -/
theorem employeesOf_sorted (rows : List Row) :
    (employeesOf rows).Pairwise (fun a b => pairLe a b = true) := by
  haveI : IsTotal (String × String) (fun a b => pairLe a b = true) := ⟨pairLe_total⟩
  haveI : IsTrans (String × String) (fun a b => pairLe a b = true) :=
    ⟨fun _ _ _ => pairLe_trans⟩
  exact List.sorted_insertionSort _ _

/-! ## Lemmas about the per-key candidate pools -/

/-- Membership in the IN pool of a key, unfolded to the source row. -/
theorem mem_inCandidates {df : List Row} {y m : Nat} {id : String} {d t : Nat} :
    t ∈ inCandidates df y m id d ↔
      ∃ r ∈ df, r.empId = id ∧ r.year = y ∧ r.month = m ∧ r.day = d ∧
        matchesIn r.tr = true ∧ r.sec = t := by
  simp only [inCandidates, dateRows, empRows, monthRows, List.mem_map, List.mem_filter,
    Bool.and_eq_true, beq_iff_eq, decide_eq_true_eq]
  tauto

/-- Membership in the OUT pool of a key, unfolded to the source row. -/
theorem mem_outCandidates {df : List Row} {y m : Nat} {id : String} {d t : Nat} :
    t ∈ outCandidates df y m id d ↔
      ∃ r ∈ df, r.empId = id ∧ r.year = y ∧ r.month = m ∧ r.day = d ∧
        matchesOut r.tr = true ∧ r.sec = t := by
  simp only [outCandidates, dateRows, empRows, monthRows, List.mem_map, List.mem_filter,
    Bool.and_eq_true, beq_iff_eq, decide_eq_true_eq]
  tauto

theorem inCandidates_perm {df df' : List Row} (h : df.Perm df') (y m : Nat) (id : String)
    (d : Nat) : (inCandidates df y m id d).Perm (inCandidates df' y m id d) := by
  unfold inCandidates dateRows empRows monthRows
  exact ((((h.filter _).filter _).filter _).filter _).map _

theorem outCandidates_perm {df df' : List Row} (h : df.Perm df') (y m : Nat) (id : String)
    (d : Nat) : (outCandidates df y m id d).Perm (outCandidates df' y m id d) := by
  unfold outCandidates dateRows empRows monthRows
  exact ((((h.filter _).filter _).filter _).filter _).map _

/-- The per-key aggregation result is invariant under reordering of the
event list. -/
theorem dayFact_perm {df df' : List Row} (h : df.Perm df') (y m : Nat) (id : String)
    (d : Nat) : dayFact df y m id d = dayFact df' y m id d := by
  simp only [dayFact]
  rw [minOpt_perm (inCandidates_perm h y m id d), maxOpt_perm (outCandidates_perm h y m id d)]

/-! ## Claim theorems -/

/-- C7: re-running the per-month aggregation on the same normalized event
set, or on any permutation of it, yields identical firstIn, lastOut and
status values for every (employee, day): the computation is a pure
function of the event multiset, independent of stream order. -/
theorem c7_aggregation_order_independent (df df' : List Row) (h : df.Perm df')
    (y m : Nat) (id : String) (d : Nat) :
    dayFact df y m id d = dayFact df' y m id d ∧
    dayCell df y m id d = dayCell df' y m id d := by
  have hf := dayFact_perm h y m id d
  exact ⟨hf, by simp only [dayCell, hf]⟩

def c7dfA : List Row :=
  [⟨"00000001", "A", "check in", 2024, 4, 1, 32700⟩,
   ⟨"00000001", "A", "check out", 2024, 4, 1, 61200⟩]

def c7dfB : List Row :=
  [⟨"00000001", "A", "check out", 2024, 4, 1, 61200⟩,
   ⟨"00000001", "A", "check in", 2024, 4, 1, 32700⟩]

/-- Witness for C7 at a concrete two-row permutation. -/
theorem c7_witness :
    dayFact c7dfA 2024 4 "00000001" 1 = dayFact c7dfB 2024 4 "00000001" 1 ∧
    dayCell c7dfA 2024 4 "00000001" 1 = dayCell c7dfB 2024 4 "00000001" 1 :=
  c7_aggregation_order_independent c7dfA c7dfB (List.Perm.swap _ _ _) 2024 4 "00000001" 1

/-- C4: for any employee and any valid target month, the grid has exactly
the calendar number of days, its day keys are 1, 2, ... in order with no
gaps or duplicates (December included, via the year+1 rollover inside
`daysInMonth`), and a day with no punch rows for that employee carries the
unset pair and status 'A'. -/
theorem c4_grid_complete (df : List Row) (y m : Nat) (id : String)
    (hy : 1 ≤ y) (hm1 : 1 ≤ m) (hm2 : m ≤ 12) :
    (empGrid df y m id).length = calendarDays y m ∧
    (empGrid df y m id).map Prod.fst = List.range' 1 (calendarDays y m) ∧
    (∀ d cell, (d, cell) ∈ empGrid df y m id →
      (∀ r ∈ df, ¬(r.empId = id ∧ r.year = y ∧ r.month = m ∧ r.day = d)) →
      dayFact df y m id d = { firstIn := none, lastOut := none } ∧
      cell.inS = "00:00" ∧ cell.outS = "00:00" ∧ cell.status = 'A') := by
  refine ⟨?_, ?_, ?_⟩
  · simp [empGrid, monthDays, daysInMonth_eq_calendarDays y m hy hm1 hm2]
  · rw [empGrid, List.map_map]
    have hcomp : (Prod.fst ∘ fun d => (d, dayCell df y m id d)) = fun d => d := rfl
    rw [hcomp, List.map_id', monthDays, daysInMonth_eq_calendarDays y m hy hm1 hm2]
  · intro d cell hmem hno
    have hin : inCandidates df y m id d = [] := by
      rw [List.eq_nil_iff_forall_not_mem]
      intro t ht
      obtain ⟨r, hr, h1, h2, h3, h4, _, _⟩ := mem_inCandidates.1 ht
      exact hno r hr ⟨h1, h2, h3, h4⟩
    have hout : outCandidates df y m id d = [] := by
      rw [List.eq_nil_iff_forall_not_mem]
      intro t ht
      obtain ⟨r, hr, h1, h2, h3, h4, _, _⟩ := mem_outCandidates.1 ht
      exact hno r hr ⟨h1, h2, h3, h4⟩
    have hfact : dayFact df y m id d = { firstIn := none, lastOut := none } := by
      simp [dayFact, hin, hout, minOpt, maxOpt]
    have hcell : cell = dayCell df y m id d := by
      simp only [empGrid, List.mem_map] at hmem
      obtain ⟨d', _, heq⟩ := hmem
      injection heq with e1 e2
      exact (e1 ▸ e2).symm
    subst hcell
    refine ⟨hfact, ?_, ?_, ?_⟩ <;> simp [dayCell, hfact, timeCell, statusOf]

def c4df : List Row := [⟨"00000001", "A", "check in", 2024, 4, 5, 32700⟩]

/-- Witness for C4: April 2024 has 30 grid days for this employee, and
day 6, which has no punch rows, is absent with both lookups unset. -/
theorem c4_witness :
    (empGrid c4df 2024 4 "00000001").length = calendarDays 2024 4 ∧
    (dayFact c4df 2024 4 "00000001" 6 = { firstIn := none, lastOut := none } ∧
      (dayCell c4df 2024 4 "00000001" 6).inS = "00:00" ∧
      (dayCell c4df 2024 4 "00000001" 6).outS = "00:00" ∧
      (dayCell c4df 2024 4 "00000001" 6).status = 'A') :=
  ⟨(c4_grid_complete c4df 2024 4 "00000001" (by decide) (by decide) (by decide)).1,
   (c4_grid_complete c4df 2024 4 "00000001" (by decide) (by decide) (by decide)).2.2
     6 (dayCell c4df 2024 4 "00000001" 6) (by decide) (by decide)⟩

def c3df : List Row :=
  [⟨"00000001", "A", "check in", 2024, 4, 1, 0⟩,
   ⟨"00000001", "A", "check out", 2024, 4, 1, 61200⟩]

/-- C3 counterexample: on a day whose IN punch resolves to exactly
midnight (second 0) and whose OUT punch resolves to 17:00, both `firstIn`
and `lastOut` are resolved, yet the status is 'E' (PARTIAL), not 'P'
(PRESENT): the classification is not independent of the clock time of the
resolved punches. -/
theorem c3_counterexample :
    (dayFact c3df 2024 4 "00000001" 1).firstIn = some 0 ∧
    (dayFact c3df 2024 4 "00000001" 1).lastOut = some 61200 ∧
    (dayCell c3df 2024 4 "00000001" 1).status ≠ 'P' ∧
    (dayCell c3df 2024 4 "00000001" 1).status = 'E' := by decide

/-- C3 amended: the status is 'P' exactly when both lookups resolve to
times at or after 00:01:00 (so that they do not format to the '00:00'
sentinel), 'E' exactly when precisely one of them does, and 'A' exactly
when neither does; a resolved punch inside 00:00:00-00:00:59 behaves as a
missing punch. -/
theorem c3_status_by_sentinel (df : List Row) (y m : Nat) (id : String) (d : Nat)
    (hsec : ∀ r ∈ df, r.sec < 86400) :
    ((dayCell df y m id d).status = 'P' ↔
      (∃ t, (dayFact df y m id d).firstIn = some t ∧ 60 ≤ t) ∧
      (∃ u, (dayFact df y m id d).lastOut = some u ∧ 60 ≤ u)) ∧
    ((dayCell df y m id d).status = 'E' ↔
      ((∃ t, (dayFact df y m id d).firstIn = some t ∧ 60 ≤ t) ↔
        ¬(∃ u, (dayFact df y m id d).lastOut = some u ∧ 60 ≤ u))) ∧
    ((dayCell df y m id d).status = 'A' ↔
      (¬(∃ t, (dayFact df y m id d).firstIn = some t ∧ 60 ≤ t) ∧
       ¬(∃ u, (dayFact df y m id d).lastOut = some u ∧ 60 ≤ u))) := by
  have hin : ∀ t, (dayFact df y m id d).firstIn = some t → t < 86400 := by
    intro t ht
    have hmem : t ∈ inCandidates df y m id d := (minOpt_eq_some.1 ht).1
    obtain ⟨r, hr, _, _, _, _, _, hsec'⟩ := mem_inCandidates.1 hmem
    exact hsec' ▸ hsec r hr
  have hout : ∀ u, (dayFact df y m id d).lastOut = some u → u < 86400 := by
    intro u hu
    have hmem : u ∈ outCandidates df y m id d := (maxOpt_eq_some.1 hu).1
    obtain ⟨r, hr, _, _, _, _, _, hsec'⟩ := mem_outCandidates.1 hmem
    exact hsec' ▸ hsec r hr
  have hstat : (dayCell df y m id d).status = statusOf (dayFact df y m id d) := rfl
  rw [hstat]
  exact statusOf_cases (dayFact df y m id d) hin hout

def c3wdf : List Row :=
  [⟨"00000001", "A", "check in", 2024, 4, 2, 32700⟩,
   ⟨"00000001", "A", "check out", 2024, 4, 2, 61200⟩]

/-- Witness for the amended C3 at a concrete data set. -/
theorem c3_witness :
    ((dayCell c3wdf 2024 4 "00000001" 2).status = 'P' ↔
      (∃ t, (dayFact c3wdf 2024 4 "00000001" 2).firstIn = some t ∧ 60 ≤ t) ∧
      (∃ u, (dayFact c3wdf 2024 4 "00000001" 2).lastOut = some u ∧ 60 ≤ u)) :=
  (c3_status_by_sentinel c3wdf 2024 4 "00000001" 2 (by decide)).1

def c9wdf : List Row :=
  [⟨"00000001", "A", "check in", 2024, 4, 1, 30⟩,
   ⟨"00000001", "A", "check out", 2024, 4, 1, 61200⟩]

/-- C9: a missing lookup renders the sentinel '00:00' in the In-Time and
Out-Time cells, and a genuine punch that formats to '00:00' (any second in
00:00:00-00:00:59) is treated as missing by the classification, so an IN
at midnight with an OUT at 17:00 gives status 'E', not 'P'. -/
theorem c9_midnight_sentinel (df : List Row) (y m : Nat) (id : String) (d : Nat) (t u : Nat)
    (ht : (dayFact df y m id d).firstIn = some t) (ht60 : t < 60)
    (hu : (dayFact df y m id d).lastOut = some u) (hu60 : 60 ≤ u) (hub : u < 86400) :
    (dayCell df y m id d).status = 'E' ∧
    (∀ df2 : List Row, ∀ y2 m2 d2 : Nat, ∀ id2 : String,
      (dayFact df2 y2 m2 id2 d2).firstIn = none →
      (dayCell df2 y2 m2 id2 d2).inS = "00:00") ∧
    (∀ df2 : List Row, ∀ y2 m2 d2 : Nat, ∀ id2 : String,
      (dayFact df2 y2 m2 id2 d2).lastOut = none →
      (dayCell df2 y2 m2 id2 d2).outS = "00:00") := by
  refine ⟨?_, ?_, ?_⟩
  · have h1 : timeCell (dayFact df y m id d).firstIn = "00:00" := by
      rw [ht]
      exact (fmtHM_eq_sentinel (by omega)).2 ht60
    have h2 : timeCell (dayFact df y m id d).lastOut ≠ "00:00" := by
      rw [hu]
      intro hc
      have := (fmtHM_eq_sentinel hub).1 hc
      omega
    simp [dayCell, statusOf, h1, h2]
  · intro df2 y2 m2 d2 id2 hnone
    simp [dayCell, hnone, timeCell]
  · intro df2 y2 m2 d2 id2 hnone
    simp [dayCell, hnone, timeCell]

/-- Witness for C9: IN at 00:00:30 and OUT at 17:00 yield status 'E'. -/
theorem c9_witness :
    (dayCell c9wdf 2024 4 "00000001" 1).status = 'E' :=
  (c9_midnight_sentinel c9wdf 2024 4 "00000001" 1 30 61200
    (by decide) (by decide) (by decide) (by decide) (by decide)).1

def c2df : List Row := [⟨"00000001", "A", "in/out", 2024, 4, 1, 32400⟩]

/-- C2 counterexample: the label 'in/out' matches both keyword sets, so
the specification classifies it UNKNOWN, yet the single event sets both
`firstIn` and `lastOut` for its day: it participates in both aggregations
instead of neither. -/
theorem c2_counterexample :
    matchesIn "in/out" = true ∧ matchesOut "in/out" = true ∧
    specDirection "in/out" = Direction.UNKNOWN ∧
    dayFact c2df 2024 4 "00000001" 1 = { firstIn := some 32400, lastOut := some 32400 } ∧
    dayFact c2df 2024 4 "00000001" 1 ≠ dayFact [] 2024 4 "00000001" 1 := by decide

/-- C2 amended: an event whose label matches neither keyword set is
excluded from both aggregations (removing it changes no day fact), but an
event whose label matches both sets contributes to both the firstIn
minimum and the lastOut maximum. -/
theorem c2_unmatched_excluded (r : Row) (df : List Row)
    (h1 : matchesIn r.tr = false) (h2 : matchesOut r.tr = false)
    (y m : Nat) (id : String) (d : Nat) :
    specDirection r.tr = Direction.UNKNOWN ∧
    dayFact (r :: df) y m id d = dayFact df y m id d := by
  constructor
  · simp [specDirection, h1, h2]
  · have hin : inCandidates (r :: df) y m id d = inCandidates df y m id d := by
      unfold inCandidates dateRows empRows monthRows
      rw [List.filter_cons]
      split
      · rw [List.filter_cons]
        split
        · rw [List.filter_cons, if_neg (by simp [h1])]
        · rfl
      · rfl
    have hout : outCandidates (r :: df) y m id d = outCandidates df y m id d := by
      unfold outCandidates dateRows empRows monthRows
      rw [List.filter_cons]
      split
      · rw [List.filter_cons]
        split
        · rw [List.filter_cons, if_neg (by simp [h2])]
        · rfl
      · rfl
    simp only [dayFact, hin, hout]

def c2wdf : List Row := [⟨"00000001", "A", "check in", 2024, 4, 1, 32400⟩]

/-- Witness for the amended C2: prepending a row with the unmatched label
'xyz' leaves the day fact unchanged. -/
theorem c2_witness :
    specDirection "xyz" = Direction.UNKNOWN ∧
    dayFact (⟨"00000001", "A", "xyz", 2024, 4, 1, 28800⟩ :: c2wdf) 2024 4 "00000001" 1 =
      dayFact c2wdf 2024 4 "00000001" 1 :=
  c2_unmatched_excluded ⟨"00000001", "A", "xyz", 2024, 4, 1, 28800⟩ c2wdf
    (by decide) (by decide) 2024 4 "00000001" 1

def c5df : List Row :=
  [⟨"00000001", "A", "in/out", 2024, 4, 1, 28800⟩,
   ⟨"00000001", "A", "check in", 2024, 4, 1, 32400⟩]

/-- C5 counterexample: with an event at 08:00 whose label matches both
keyword sets (specification direction UNKNOWN) and an IN event at 09:00,
the code's firstIn is 08:00 while the minimum over the events of
specification direction IN is 09:00: firstIn is not the minimum over
direction=IN events. -/
theorem c5_counterexample :
    (dayFact c5df 2024 4 "00000001" 1).firstIn = some 28800 ∧
    minOpt (specInSecs c5df 2024 4 "00000001" 1) = some 32400 ∧
    (dayFact c5df 2024 4 "00000001" 1).firstIn ≠
      minOpt (specInSecs c5df 2024 4 "00000001" 1) := by decide

def c5exdf : List Row :=
  [⟨"00000001", "A", "check in", 2024, 4, 1, 32700⟩,
   ⟨"00000001", "A", "check in", 2024, 4, 1, 33000⟩,
   ⟨"00000001", "A", "check in", 2024, 4, 1, 46800⟩,
   ⟨"00000001", "A", "check out", 2024, 4, 1, 61200⟩,
   ⟨"00000001", "A", "check out", 2024, 4, 1, 63000⟩]

/-- C5 amended: firstIn is the minimum second-of-day over the key's
events whose label matches the IN keyword set (and lastOut the maximum
over those matching the OUT set), events matching both sets counting on
both sides; in particular the key collapses to at most one in-time and
one out-time. -/
theorem c5_minmax_reduction (df : List Row) (y m : Nat) (id : String) (d : Nat) (t u : Nat) :
    ((dayFact df y m id d).firstIn = some t ↔
      (∃ r ∈ df, r.empId = id ∧ r.year = y ∧ r.month = m ∧ r.day = d ∧
        matchesIn r.tr = true ∧ r.sec = t) ∧
      (∀ r ∈ df, r.empId = id → r.year = y → r.month = m → r.day = d →
        matchesIn r.tr = true → t ≤ r.sec)) ∧
    ((dayFact df y m id d).lastOut = some u ↔
      (∃ r ∈ df, r.empId = id ∧ r.year = y ∧ r.month = m ∧ r.day = d ∧
        matchesOut r.tr = true ∧ r.sec = u) ∧
      (∀ r ∈ df, r.empId = id → r.year = y → r.month = m → r.day = d →
        matchesOut r.tr = true → r.sec ≤ u)) ∧
    (dayFact c5exdf 2024 4 "00000001" 1 =
      { firstIn := some 32700, lastOut := some 63000 } ∧
     (dayCell c5exdf 2024 4 "00000001" 1).status = 'P') := by
  refine ⟨?_, ?_, by decide⟩
  · rw [show (dayFact df y m id d).firstIn = minOpt (inCandidates df y m id d) from rfl,
      minOpt_eq_some, mem_inCandidates]
    constructor
    · rintro ⟨hex, hbd⟩
      refine ⟨hex, ?_⟩
      intro r hr hid hy hm hd htr
      exact hbd r.sec (mem_inCandidates.2 ⟨r, hr, hid, hy, hm, hd, htr, rfl⟩)
    · rintro ⟨hex, hbd⟩
      refine ⟨hex, ?_⟩
      intro b hb
      obtain ⟨r, hr, hid, hy, hm, hd, htr, hsec⟩ := mem_inCandidates.1 hb
      exact hsec ▸ hbd r hr hid hy hm hd htr
  · rw [show (dayFact df y m id d).lastOut = maxOpt (outCandidates df y m id d) from rfl,
      maxOpt_eq_some, mem_outCandidates]
    constructor
    · rintro ⟨hex, hbd⟩
      refine ⟨hex, ?_⟩
      intro r hr hid hy hm hd htr
      exact hbd r.sec (mem_outCandidates.2 ⟨r, hr, hid, hy, hm, hd, htr, rfl⟩)
    · rintro ⟨hex, hbd⟩
      refine ⟨hex, ?_⟩
      intro b hb
      obtain ⟨r, hr, hid, hy, hm, hd, htr, hsec⟩ := mem_outCandidates.1 hb
      exact hsec ▸ hbd r hr hid hy hm hd htr

/-- C8: a requested month with zero matching rows produces the "no data"
outcome for both the detail and the summary report, and within the
per-month loop it contributes exactly one `none` entry while every other
requested month's entry is computed exactly as it would be without it. -/
theorem c8_empty_month_isolated (df : List Row) (y m : Nat) (ms1 ms2 : List (Nat × Nat))
    (h : monthRows df y m = []) :
    generateMonthlyReport df y m = none ∧
    generateSummaryReport df y m = none ∧
    generateReports df (ms1 ++ (y, m) :: ms2) =
      generateReports df ms1 ++ ((y, m), none) :: generateReports df ms2 := by
  have hnone : generateMonthlyReport df y m = none := by
    simp [generateMonthlyReport, h]
  refine ⟨hnone, by simp [generateSummaryReport, h], ?_⟩
  simp [generateReports, hnone]

def c8df : List Row := [⟨"00000001", "A", "check in", 2024, 4, 5, 32700⟩]

/-- Witness for C8: requesting March, May and April 2024 on data that only
has April rows yields a `none` entry for May between the other months'
entries. -/
theorem c8_witness :
    generateMonthlyReport c8df 2024 5 = none ∧
    generateSummaryReport c8df 2024 5 = none ∧
    generateReports c8df ([(2024, 3)] ++ (2024, 5) :: [(2024, 4)]) =
      generateReports c8df [(2024, 3)] ++ ((2024, 5), none) :: generateReports c8df [(2024, 4)] :=
  c8_empty_month_isolated c8df 2024 5 [(2024, 3)] [(2024, 4)] (by decide)

/-! ## Summary counting -/

/-- The number of distinct punch dates of an employee id equals the number
of calendar days of the month on which that id has at least one punch row,
provided every row of the month carries a day inside the month. -/
theorem presentDays_eq_punch_days (df : List Row) (y m : Nat) (id : String)
    (hvalid : ∀ r ∈ df, r.year = y → r.month = m → 1 ≤ r.day ∧ r.day ≤ daysInMonth y m) :
    presentDaysOf df y m id = (monthDays y m).countP (fun d => hasPunch df y m id d) := by
  classical
  have her_mem : ∀ r : Row, r ∈ empRows (monthRows df y m) id ↔
      r ∈ df ∧ r.year = y ∧ r.month = m ∧ r.empId = id := by
    intro r
    simp only [empRows, monthRows, List.mem_filter, Bool.and_eq_true, beq_iff_eq]
    tauto
  -- the triple map is the day map relabelled by the fixed (y, m)
  have hmapeq : ((empRows (monthRows df y m) id).map fun r => (r.year, r.month, r.day)) =
      ((empRows (monthRows df y m) id).map Row.day).map (fun d => (y, m, d)) := by
    rw [List.map_map]
    apply List.map_congr_left
    intro r hr
    obtain ⟨_, hy, hm, _⟩ := (her_mem r).1 hr
    simp [Function.comp, hy, hm]
  have hginj : Function.Injective (fun d : Nat => (y, m, d)) := by
    intro a b hab
    simpa using hab
  -- the image description of the triple set
  have himg : (((empRows (monthRows df y m) id).map Row.day).map (fun d => (y, m, d))).toFinset
      = ((empRows (monthRows df y m) id).map Row.day).toFinset.image (fun d => (y, m, d)) := by
    ext x
    simp [List.mem_map, Finset.mem_image]
  -- the day set equals the filtered calendar days
  have hdays : ((empRows (monthRows df y m) id).map Row.day).toFinset =
      ((monthDays y m).filter (fun d => hasPunch df y m id d)).toFinset := by
    ext d
    simp only [List.mem_toFinset, List.mem_map, List.mem_filter]
    constructor
    · rintro ⟨r, hr, rfl⟩
      obtain ⟨hdf, hy, hm, hid⟩ := (her_mem r).1 hr
      have hbounds := hvalid r hdf hy hm
      refine ⟨?_, ?_⟩
      · rw [monthDays, List.mem_range'_1]
        omega
      · have hrmem : r ∈ dateRows (empRows (monthRows df y m) id) y m r.day := by
          simp only [dateRows, List.mem_filter, Bool.and_eq_true, beq_iff_eq]
          exact ⟨hr, ⟨hy, hm⟩, trivial⟩
        have hne : dateRows (empRows (monthRows df y m) id) y m r.day ≠ [] :=
          List.ne_nil_of_mem hrmem
        simp [hasPunch, List.isEmpty_iff, hne]
    · rintro ⟨hd, hp⟩
      have hne : dateRows (empRows (monthRows df y m) id) y m d ≠ [] := by
        intro hc
        rw [hasPunch, hc] at hp
        simp at hp
      obtain ⟨r, hrmem⟩ := List.exists_mem_of_ne_nil _ hne
      simp only [dateRows, List.mem_filter, Bool.and_eq_true, beq_iff_eq] at hrmem
      exact ⟨r, hrmem.1, hrmem.2.2⟩
  calc presentDaysOf df y m id
      = ((empRows (monthRows df y m) id).map fun r => (r.year, r.month, r.day)).toFinset.card := by
        rw [presentDaysOf, length_firstDedup]
    _ = (((empRows (monthRows df y m) id).map Row.day).toFinset.image (fun d => (y, m, d))).card := by
        rw [hmapeq, himg]
    _ = ((empRows (monthRows df y m) id).map Row.day).toFinset.card :=
        Finset.card_image_of_injective _ hginj
    _ = ((monthDays y m).filter (fun d => hasPunch df y m id d)).toFinset.card := by
        rw [hdays]
    _ = ((monthDays y m).filter (fun d => hasPunch df y m id d)).length :=
        List.toFinset_card_of_nodup ((List.nodup_range' 1 (daysInMonth y m)).filter _)
    _ = (monthDays y m).countP (fun d => hasPunch df y m id d) :=
        (List.countP_eq_length_filter _ _).symm

def c1df : List Row := [⟨"00000001", "A", "xyz", 2024, 4, 5, 3600⟩]

/-- C1 counterexample: an employee whose only event of the month carries
the label 'xyz' (matching neither keyword set) has a summary presentDays
of 1, while the grid holds no PRESENT or PARTIAL day at all (the only
punched day has status 'A'): the summary does count days without any
resolved direction. -/
theorem c1_counterexample :
    (generateSummaryReport c1df 2024 4).map (fun l => l.map SummaryRow.presentDays) =
      some [1] ∧
    gridPresentCount c1df 2024 4 "00000001" = 0 ∧
    (dayCell c1df 2024 4 "00000001" 5).status = 'A' ∧
    ¬ (1 : Nat) = 0 := by decide

/-- C1 amended: presentDays is the number of distinct calendar days of the
month on which the employee id has at least one punch event, whether or
not any of its labels resolves to a direction; equivalently, the count of
grid days carrying at least one punch row. -/
theorem c1_present_days_count (df : List Row) (y m : Nat) (id : String)
    (hvalid : ∀ r ∈ df, r.year = y → r.month = m → 1 ≤ r.day ∧ r.day ≤ daysInMonth y m) :
    presentDaysOf df y m id = (monthDays y m).countP (fun d => hasPunch df y m id d) ∧
    (∀ srows, generateSummaryReport df y m = some srows →
      ∀ s ∈ srows, s.presentDays =
        (monthDays y m).countP (fun d => hasPunch df y m s.empId d)) := by
  refine ⟨presentDays_eq_punch_days df y m id hvalid, ?_⟩
  intro srows hsome s hs
  simp only [generateSummaryReport] at hsome
  split at hsome
  · simp at hsome
  · injection hsome with hsome
    subst hsome
    simp only [List.mem_map] at hs
    obtain ⟨p, hp, rfl⟩ := hs
    exact presentDays_eq_punch_days df y m p.1 hvalid

def c1wdf : List Row :=
  [⟨"00000001", "A", "check in", 2024, 4, 5, 32700⟩,
   ⟨"00000001", "A", "xyz", 2024, 4, 7, 32700⟩]

/-- Witness for the amended C1 at a concrete data set: two punched days
(one of them with an unresolvable label) give presentDays 2. -/
theorem c1_witness :
    (presentDaysOf c1wdf 2024 4 "00000001" =
      (monthDays 2024 4).countP (fun d => hasPunch c1wdf 2024 4 "00000001" d)) ∧
    presentDaysOf c1wdf 2024 4 "00000001" = 2 :=
  ⟨(c1_present_days_count c1wdf 2024 4 "00000001" (by decide)).1, by decide⟩

/-! ## Percentage rounding and rendering -/

/-- Floor of a ratio of naturals over ℚ is natural division. -/
theorem floor_ratio (a b : Nat) : ⌊((a : ℚ)) / (b : ℚ)⌋ = ((a / b : Nat) : ℤ) := by
  have h := Rat.floor_intCast_div_natCast (a : ℤ) b
  push_cast at h
  rw [h]
  exact (Int.ofNat_div a b).symm

/-- Fractional part of a ratio of naturals is the remainder over the
denominator. -/
theorem ratio_sub_floor (a b : Nat) (hb : 0 < b) :
    (a : ℚ) / b - ((a / b : Nat) : ℚ) = ((a % b : Nat) : ℚ) / b := by
  have hb' : (b : ℚ) ≠ 0 := Nat.cast_ne_zero.mpr (by omega)
  have hdm : ((b * (a / b) + a % b : Nat) : ℚ) = (a : ℚ) := by
    exact_mod_cast congrArg (fun n : Nat => (n : ℚ)) (Nat.div_add_mod a b)
  push_cast at hdm
  field_simp
  linarith [hdm]

/-- Comparison of the fractional part with one half in terms of naturals. -/
theorem half_lt_iff (r b : Nat) (hb : 0 < b) :
    ((r : ℚ) / b < 1 / 2 ↔ 2 * r < b) ∧ (1 / 2 < (r : ℚ) / b ↔ b < 2 * r) := by
  have hb' : (0 : ℚ) < b := by exact_mod_cast hb
  constructor
  · rw [div_lt_div_iff hb' (by norm_num : (0 : ℚ) < 2), one_mul]
    norm_cast
    omega
  · rw [div_lt_div_iff (by norm_num : (0 : ℚ) < 2) hb', one_mul]
    norm_cast
    omega

/-- The integer percentage computation agrees with round-half-even of the
exact ratio. -/
theorem pctCents_eq_roundEven (p t : Nat) (ht : 0 < t) :
    (pctCents p t : ℤ) = intRoundEven (((10000 * p : Nat) : ℚ) / t) := by
  have hfloor : ⌊((10000 * p : Nat) : ℚ) / t⌋ = (((10000 * p) / t : Nat) : ℤ) :=
    floor_ratio (10000 * p) t
  have hfrac : ((10000 * p : Nat) : ℚ) / t - (((10000 * p) / t : Nat) : ℚ)
      = (((10000 * p) % t : Nat) : ℚ) / t := ratio_sub_floor (10000 * p) t ht
  have hcast : ((((10000 * p) / t : Nat) : ℤ) : ℚ) = (((10000 * p) / t : Nat) : ℚ) := by
    push_cast
    rfl
  unfold intRoundEven pctCents
  dsimp only
  rw [hfloor, hcast, hfrac]
  by_cases h1 : 2 * ((10000 * p) % t) < t
  · rw [if_pos ((half_lt_iff _ t ht).1.2 h1), if_pos h1]
  · rw [if_neg (fun hc => h1 ((half_lt_iff _ t ht).1.1 hc)), if_neg h1]
    by_cases h2 : t < 2 * ((10000 * p) % t)
    · rw [if_pos ((half_lt_iff _ t ht).2.2 h2), if_pos h2]
      push_cast
      rfl
    · rw [if_neg (fun hc => h2 ((half_lt_iff _ t ht).2.1 hc)), if_neg h2]
      by_cases h3 : (10000 * p) / t % 2 = 0
      · have hN : ((10000 * p / t % 2 == 0) = true) := beq_iff_eq.mpr h3
        have hZcast : (((10000 * p) / t : Nat) : ℤ) % 2 = 0 := by exact_mod_cast h3
        have hZ : (((((10000 * p) / t : Nat) : ℤ) % 2 == 0) = true) := beq_iff_eq.mpr hZcast
        rw [if_pos hZ, if_pos hN]
      · have hN : ¬ ((10000 * p / t % 2 == 0) = true) := fun hc => h3 (beq_iff_eq.mp hc)
        have hZ : ¬ (((((10000 * p) / t : Nat) : ℤ) % 2 == 0) = true) := by
          intro hc
          exact h3 (by exact_mod_cast (beq_iff_eq.mp hc))
        rw [if_neg hZ, if_neg hN]
        push_cast
        rfl

/-- The percentage value of the summary is the round-half-even of
`presentDays / totalDays * 100` to two decimals. -/
theorem pct_value_eq_specRound2 (p t : Nat) (ht : 0 < t) :
    (pctCents p t : ℚ) / 100 = specRound2 ((p : ℚ) / t * 100) := by
  unfold specRound2
  have harg : ((p : ℚ) / t * 100) * 100 = ((10000 * p : Nat) : ℚ) / t := by
    have ht' : (t : ℚ) ≠ 0 := Nat.cast_ne_zero.mpr (by omega)
    push_cast
    field_simp
    ring
  rw [harg, ← pctCents_eq_roundEven p t ht]
  push_cast
  rfl

/-- The rounded percentage is at most 100.00 when presentDays does not
exceed totalDays. -/
theorem pctCents_le (p t : Nat) (ht : 0 < t) (hpt : p ≤ t) : pctCents p t ≤ 10000 := by
  have hq : 10000 * p / t ≤ 10000 := by
    calc 10000 * p / t ≤ 10000 * t / t :=
          Nat.div_le_div_right (Nat.mul_le_mul_left _ hpt)
    _ = 10000 := Nat.mul_div_cancel 10000 ht
  by_cases hq' : 10000 * p / t = 10000
  · have hmod : 10000 * p % t = 0 := by
      have hdm := Nat.div_add_mod (10000 * p) t
      rw [hq'] at hdm
      have hle : 10000 * p ≤ 10000 * t := Nat.mul_le_mul_left _ hpt
      omega
    simp only [pctCents, hq', hmod]
    rw [if_pos (by omega)]
  · simp only [pctCents]
    split
    · omega
    · split
      · omega
      · split <;> omega

/-- Rendering shape of the percentage text: one or two fractional digits. -/
theorem fracDigits_centsToStr (n : Nat) (hn : n ≤ 10000) :
    1 ≤ fracDigits (centsToStr n ++ "%") ∧ fracDigits (centsToStr n ++ "%") ≤ 2 := by
  have hAll : ∀ w < 101, ∀ ch ∈ (toString w : String).data, (decide (ch ≠ '.') = true) := by
    decide
  have hdot : ∀ ch ∈ (toString (n / 100) : String).data, (decide (ch ≠ '.') = true) :=
    hAll (n / 100) (by omega)
  have hD1 : ∀ d < 10, (toString d : String).data.length = 1 ∧
      (∀ ch ∈ (toString d : String).data, (decide (ch ≠ '%') = true)) := by decide
  have hP2 : ∀ c < 100, (pad2 c).data.length = 2 ∧
      (∀ ch ∈ (pad2 c).data, (decide (ch ≠ '%') = true)) := by decide
  unfold centsToStr
  by_cases h0 : n % 100 = 0
  · rw [if_pos (beq_iff_eq.mpr h0)]
    unfold fracDigits
    rw [show ((toString (n / 100) : String) ++ ".0" ++ "%").data
        = (toString (n / 100) : String).data ++ ('.' :: '0' :: '%' :: []) by
          simp [List.append_assoc],
      List.dropWhile_append_of_pos hdot]
    simp +decide
  · rw [if_neg (fun hc => h0 (beq_iff_eq.mp hc))]
    by_cases h10 : n % 100 % 10 = 0
    · rw [if_pos (beq_iff_eq.mpr h10)]
      unfold fracDigits
      obtain ⟨hlen, hpc⟩ := hD1 (n % 100 / 10) (by omega)
      rw [show ((toString (n / 100) : String) ++ "." ++ (toString (n % 100 / 10) : String)
            ++ "%").data
          = (toString (n / 100) : String).data ++
            ('.' :: ((toString (n % 100 / 10) : String).data ++ ('%' :: []))) by
            simp [List.append_assoc],
        List.dropWhile_append_of_pos hdot]
      rw [show List.dropWhile (fun c => decide (c ≠ '.'))
            ('.' :: ((toString (n % 100 / 10) : String).data ++ ('%' :: [])))
          = '.' :: ((toString (n % 100 / 10) : String).data ++ ('%' :: [])) by
            rw [List.dropWhile_cons]
            simp]
      rw [show ('.' :: ((toString (n % 100 / 10) : String).data ++ ('%' :: []))).drop 1
          = (toString (n % 100 / 10) : String).data ++ ('%' :: []) from rfl]
      rw [List.takeWhile_append_of_pos hpc]
      simp [hlen]
    · rw [if_neg (fun hc => h10 (beq_iff_eq.mp hc))]
      unfold fracDigits
      obtain ⟨hlen, hpc⟩ := hP2 (n % 100) (by omega)
      rw [show ((toString (n / 100) : String) ++ "." ++ pad2 (n % 100) ++ "%").data
          = (toString (n / 100) : String).data ++
            ('.' :: ((pad2 (n % 100)).data ++ ('%' :: []))) by
            simp [List.append_assoc],
        List.dropWhile_append_of_pos hdot]
      rw [show List.dropWhile (fun c => decide (c ≠ '.'))
            ('.' :: ((pad2 (n % 100)).data ++ ('%' :: [])))
          = '.' :: ((pad2 (n % 100)).data ++ ('%' :: [])) by
            rw [List.dropWhile_cons]
            simp]
      rw [show ('.' :: ((pad2 (n % 100)).data ++ ('%' :: []))).drop 1
          = (pad2 (n % 100)).data ++ ('%' :: []) from rfl]
      rw [List.takeWhile_append_of_pos hpc]
      simp [hlen]

/-- The percentage text always ends in the percent sign. -/
theorem centsToStr_last (n : Nat) : (centsToStr n ++ "%").data.getLast? = some '%' := by
  rw [String.data_append]
  exact List.getLast?_concat _

def c6df : List Row :=
  [⟨"00000001", "A", "check in", 2024, 4, 1, 32700⟩,
   ⟨"00000001", "A", "check in", 2024, 4, 2, 32700⟩,
   ⟨"00000001", "A", "check in", 2024, 4, 3, 32700⟩]

/-- C6 counterexample: three punched days in a 30-day month give the
percentage 10.0, rendered as '10.0%' with one fractional digit, not the
claimed two ('10.00%'). -/
theorem c6_counterexample :
    (generateSummaryReport c6df 2024 4).map (fun l => l.map SummaryRow.pct) =
      some ["10.0%"] ∧
    fracDigits "10.0%" = 1 ∧ ¬ fracDigits "10.0%" = 2 ∧ "10.0%" ≠ "10.00%" := by decide

/-- C6 amended: the percentage value is round(presentDays/totalDays*100, 2)
with ties to even, carried as a whole number of hundredths, and it is
rendered with a trailing '%' and at most two (at least one) fractional
digits: trailing fractional zeros are not padded to two places. -/
theorem c6_percentage_format (p t : Nat) (ht : 0 < t) (hpt : p ≤ t) :
    ((pctCents p t : ℚ) / 100 = specRound2 ((p : ℚ) / t * 100)) ∧
    1 ≤ fracDigits (pctString p t) ∧ fracDigits (pctString p t) ≤ 2 ∧
    (pctString p t).data.getLast? = some '%' := by
  refine ⟨pct_value_eq_specRound2 p t ht, ?_, ?_, ?_⟩
  · exact (fracDigits_centsToStr (pctCents p t) (pctCents_le p t ht hpt)).1
  · exact (fracDigits_centsToStr (pctCents p t) (pctCents_le p t ht hpt)).2
  · exact centsToStr_last (pctCents p t)

/-- Witness for the amended C6: 22 of 30 days renders as '73.33%'. -/
theorem c6_witness :
    pctString 22 30 = "73.33%" ∧
    (1 ≤ fracDigits (pctString 22 30) ∧ fracDigits (pctString 22 30) ≤ 2 ∧
      (pctString 22 30).data.getLast? = some '%') :=
  ⟨by decide, (c6_percentage_format 22 30 (by decide) (by decide)).2⟩

/-- C10: detail blocks (and summary rows) are keyed by the distinct
(id, name) pairs observed in the month, sorted by id then name under the
code-point order; a pair appears exactly when some row of the month
carries it, and every block's day data is a function of the id alone, so
two blocks sharing an id (two name spellings) carry identical day data,
and two summary rows sharing an id carry identical statistics. -/
theorem c10_blocks_by_pair (df : List Row) (y m : Nat) (blocks : List EmpBlock)
    (h : generateMonthlyReport df y m = some blocks) :
    (blocks.map (fun b => (b.empId, b.empName))).Pairwise (fun a b => pairLe a b = true) ∧
    (blocks.map (fun b => (b.empId, b.empName))).Nodup ∧
    (∀ p : String × String, p ∈ blocks.map (fun b => (b.empId, b.empName)) ↔
      ∃ r ∈ monthRows df y m, r.empId = p.1 ∧ r.name = p.2) ∧
    (∀ b ∈ blocks, b.days = empGrid df y m b.empId) ∧
    (∀ b1 ∈ blocks, ∀ b2 ∈ blocks, b1.empId = b2.empId → b1.days = b2.days) ∧
    (∀ srows, generateSummaryReport df y m = some srows →
      ∀ s1 ∈ srows, ∀ s2 ∈ srows, s1.empId = s2.empId →
        s1.presentDays = s2.presentDays ∧ s1.totalDays = s2.totalDays ∧
        s1.absentDays = s2.absentDays ∧ s1.pct = s2.pct) := by
  have hblocks : blocks = (employeesOf (monthRows df y m)).map
      (fun p => { empId := p.1, empName := p.2, days := empGrid df y m p.1 : EmpBlock }) := by
    simp only [generateMonthlyReport] at h
    split at h
    · simp at h
    · injection h with h
      exact h.symm
  have hkeys : blocks.map (fun b => (b.empId, b.empName)) = employeesOf (monthRows df y m) := by
    rw [hblocks, List.map_map]
    have hcomp : ((fun b : EmpBlock => (b.empId, b.empName)) ∘
        fun p : String × String =>
          ({ empId := p.1, empName := p.2, days := empGrid df y m p.1 } : EmpBlock)) = id := by
      funext p
      rfl
    rw [hcomp, List.map_id]
  refine ⟨?_, ?_, ?_, ?_, ?_, ?_⟩
  · rw [hkeys]
    exact employeesOf_sorted _
  · rw [hkeys]
    exact employeesOf_nodup _
  · intro p
    rw [hkeys]
    exact mem_employeesOf
  · intro b hb
    rw [hblocks] at hb
    simp only [List.mem_map] at hb
    obtain ⟨p, _, rfl⟩ := hb
    rfl
  · intro b1 hb1 b2 hb2 heq
    have e1 : b1.days = empGrid df y m b1.empId := by
      rw [hblocks] at hb1
      simp only [List.mem_map] at hb1
      obtain ⟨p, _, rfl⟩ := hb1
      rfl
    have e2 : b2.days = empGrid df y m b2.empId := by
      rw [hblocks] at hb2
      simp only [List.mem_map] at hb2
      obtain ⟨p, _, rfl⟩ := hb2
      rfl
    rw [e1, e2, heq]
  · intro srows hs s1 hs1 s2 hs2 heq
    simp only [generateSummaryReport] at hs
    split at hs
    · simp at hs
    · injection hs with hs
      subst hs
      simp only [List.mem_map] at hs1 hs2
      obtain ⟨p1, hp1, rfl⟩ := hs1
      obtain ⟨p2, hp2, rfl⟩ := hs2
      have heq' : p1.1 = p2.1 := heq
      exact ⟨by simp only [heq'], rfl, by simp only [heq'], by simp only [heq']⟩

def c10df : List Row :=
  [⟨"00000007", "Alice", "check in", 2024, 4, 1, 32700⟩,
   ⟨"00000007", "ALICE", "check out", 2024, 4, 1, 61200⟩]

/-- Witness for C10: one id observed under two name spellings yields two
blocks whose keys are sorted and distinct and whose day data coincide. -/
theorem c10_witness :
    ((((generateMonthlyReport c10df 2024 4).getD []).map
        (fun b => (b.empId, b.empName))) = [("00000007", "ALICE"), ("00000007", "Alice")]) ∧
    (∀ b1 ∈ (generateMonthlyReport c10df 2024 4).getD [],
      ∀ b2 ∈ (generateMonthlyReport c10df 2024 4).getD [],
      b1.empId = b2.empId → b1.days = b2.days) := by
  have h : generateMonthlyReport c10df 2024 4 =
      some ((generateMonthlyReport c10df 2024 4).getD []) := by rfl
  exact ⟨by decide, (c10_blocks_by_pair c10df 2024 4 _ h).2.2.2.2.1⟩
